import Mathlib

/-! # url-redirect-v1: a shallow embedding of `main.go`

The Go program keeps one process-wide map `urlDB` from short codes to `URL`
records, fills it through `createUrl` and reads it through `getUrl`; two HTTP
handlers sit on top of these.  The embedding follows `main.go` function by
function:

* a Go `string` is its sequence of bytes (`GoString`); slicing, map keys and
  `[]byte(s)` all work on those bytes;
* the global `urlDB` is passed and returned explicitly (`Store`);
* `time.Now()` is an argument of the functions that read the clock;
* a run-time panic (a slice out of range) is the error side of `Except Panic`;
* the standard-library calls are modelled by what they compute: `crypto/md5`
  by the MD5 function of RFC 1321, `encoding/hex`, `http.Error`, `http.Redirect`,
  `ResponseWriter.Write/WriteHeader/Header().Set` and the JSON encoder of a
  one-field struct by their output; the JSON decoder and the outcome of
  `url.Parse` inside `http.Redirect` are parameters.
-/

set_option maxRecDepth 100000

namespace UrlRedirect

/-! ## Go values -/

/-- A Go `string`: an immutable sequence of bytes. -/
abbrev GoString := List UInt8

/-- The bytes of a string literal of the source (Go source text is UTF-8). -/
def str (s : String) : GoString := s.toUTF8.data.toList

/-- A run-time panic of the Go program. -/
inductive Panic where
  | sliceBounds
deriving DecidableEq, Repr

/-- The slice expression `s[:hi]`; it panics when `hi > len(s)`. -/
def sliceTo (s : GoString) (hi : Nat) : Except Panic GoString :=
  if hi ≤ s.length then .ok (s.take hi) else .error .sliceBounds

/-- The slice expression `s[lo:]`; it panics when `lo > len(s)`. -/
def sliceFrom (s : GoString) (lo : Nat) : Except Panic GoString :=
  if lo ≤ s.length then .ok (s.drop lo) else .error .sliceBounds

/-- An instant as `time.Now()` returns it (nanoseconds on some clock); `0` stands for
the zero `time.Time`. -/
abbrev Time := Nat

/-! ## `crypto/md5` (RFC 1321) and `encoding/hex` -/

/-- The per-round left-rotation amounts of MD5. -/
def md5Shifts : List Nat :=
  [7, 12, 17, 22, 7, 12, 17, 22, 7, 12, 17, 22, 7, 12, 17, 22,
   5, 9, 14, 20, 5, 9, 14, 20, 5, 9, 14, 20, 5, 9, 14, 20,
   4, 11, 16, 23, 4, 11, 16, 23, 4, 11, 16, 23, 4, 11, 16, 23,
   6, 10, 15, 21, 6, 10, 15, 21, 6, 10, 15, 21, 6, 10, 15, 21]

/-- The sine table of MD5: entry `i` is `floor (2^32 * |sin (i + 1)|)`. -/
def md5Table : List Nat :=
  [0xd76aa478, 0xe8c7b756, 0x242070db, 0xc1bdceee, 0xf57c0faf, 0x4787c62a, 0xa8304613, 0xfd469501,
   0x698098d8, 0x8b44f7af, 0xffff5bb1, 0x895cd7be, 0x6b901122, 0xfd987193, 0xa679438e, 0x49b40821,
   0xf61e2562, 0xc040b340, 0x265e5a51, 0xe9b6c7aa, 0xd62f105d, 0x02441453, 0xd8a1e681, 0xe7d3fbc8,
   0x21e1cde6, 0xc33707d6, 0xf4d50d87, 0x455a14ed, 0xa9e3e905, 0xfcefa3f8, 0x676f02d9, 0x8d2a4c8a,
   0xfffa3942, 0x8771f681, 0x6d9d6122, 0xfde5380c, 0xa4beea44, 0x4bdecfa9, 0xf6bb4b60, 0xbebfbc70,
   0x289b7ec6, 0xeaa127fa, 0xd4ef3085, 0x04881d05, 0xd9d4d039, 0xe6db99e5, 0x1fa27cf8, 0xc4ac5665,
   0xf4292244, 0x432aff97, 0xab9423a7, 0xfc93a039, 0x655b59c3, 0x8f0ccc92, 0xffeff47d, 0x85845dd1,
   0x6fa87e4f, 0xfe2ce6e0, 0xa3014314, 0x4e0811a1, 0xf7537e82, 0xbd3af235, 0x2ad7d2bb, 0xeb86d391]

/-- The four 32-bit chaining words of MD5, each kept below `2^32`. -/
structure Md5State where
  a : Nat
  b : Nat
  c : Nat
  d : Nat
deriving DecidableEq, Repr

/-- The initial chaining value. -/
def md5Init : Md5State := ⟨0x67452301, 0xefcdab89, 0x98badcfe, 0x10325476⟩

/-- Rotate a 32-bit word left by `c` bits. -/
def rotl32 (x c : Nat) : Nat := ((x <<< c) % 2 ^ 32) ||| (x >>> (32 - c))

/-- Bitwise complement of a 32-bit word. -/
def not32 (x : Nat) : Nat := x ^^^ 0xffffffff

/-- Operation `i` (0 to 63) of the MD5 compression function on message words `m`. -/
def md5Step (m : List Nat) (s : Md5State) (i : Nat) : Md5State :=
  let f :=
    if i < 16 then (s.b &&& s.c) ||| (not32 s.b &&& s.d)
    else if i < 32 then (s.d &&& s.b) ||| (not32 s.d &&& s.c)
    else if i < 48 then s.b ^^^ s.c ^^^ s.d
    else s.c ^^^ (s.b ||| not32 s.d)
  let g :=
    if i < 16 then i
    else if i < 32 then (5 * i + 1) % 16
    else if i < 48 then (3 * i + 5) % 16
    else (7 * i) % 16
  let t := (f + s.a + md5Table.getD i 0 + m.getD g 0) % 2 ^ 32
  ⟨s.d, (s.b + rotl32 t (md5Shifts.getD i 0)) % 2 ^ 32, s.b, s.c⟩

/-- The number whose little-endian bytes are `bs`. -/
def leWord (bs : List UInt8) : Nat :=
  bs.foldr (fun b acc => b.toNat + 256 * acc) 0

/-- The first `n` little-endian 32-bit words of a block. -/
def blockWords : Nat → List UInt8 → List Nat
  | 0, _ => []
  | n + 1, bs => leWord (bs.take 4) :: blockWords n (bs.drop 4)

/-- The MD5 compression function on one 64-byte block. -/
def md5Block (s : Md5State) (block : List UInt8) : Md5State :=
  let m := blockWords 16 block
  let r := (List.range 64).foldl (md5Step m) s
  ⟨(s.a + r.a) % 2 ^ 32, (s.b + r.b) % 2 ^ 32, (s.c + r.c) % 2 ^ 32, (s.d + r.d) % 2 ^ 32⟩

/-- Compress `n` consecutive 64-byte blocks. -/
def md5Blocks : Nat → Md5State → List UInt8 → Md5State
  | 0, s, _ => s
  | n + 1, s, bs => md5Blocks n (md5Block s (bs.take 64)) (bs.drop 64)

/-- The `n` low little-endian bytes of `x`. -/
def leBytes : Nat → Nat → List UInt8
  | 0, _ => []
  | n + 1, x => UInt8.ofNat (x % 256) :: leBytes n (x / 256)

/-- MD5 padding for a message of `len` bytes: `0x80`, zeros up to 56 mod 64, then the
bit length as 8 little-endian bytes. -/
def md5Pad (len : Nat) : List UInt8 :=
  0x80 :: List.replicate ((119 - len % 64) % 64) 0 ++ leBytes 8 ((len * 8) % 2 ^ 64)

/-- The 16-byte MD5 digest of a message (RFC 1321). -/
def md5Sum (msg : List UInt8) : List UInt8 :=
  let padded := msg ++ md5Pad msg.length
  let s := md5Blocks (padded.length / 64) md5Init padded
  leBytes 4 s.a ++ leBytes 4 s.b ++ leBytes 4 s.c ++ leBytes 4 s.d

/-- The state of a `hash.Hash` made by `md5.New()`: the bytes written so far. -/
structure Md5Hasher where
  written : List UInt8

/-- The call `md5.New()`. -/
def md5New : Md5Hasher := ⟨[]⟩

/-- The call `hasher.Write(p)`: it adds `p` to the data hashed. -/
def Md5Hasher.Write (h : Md5Hasher) (p : List UInt8) : Md5Hasher := ⟨h.written ++ p⟩

/-- The call `hasher.Sum(b)`: it appends the digest of the data written to `b`. -/
def Md5Hasher.Sum (h : Md5Hasher) (b : List UInt8) : List UInt8 := b ++ md5Sum h.written

/-- The digit table of `encoding/hex`. -/
def hextable : List UInt8 := str "0123456789abcdef"

/-- The call `hex.EncodeToString(src)`: two digits per byte, high nibble first. -/
def hexEncodeToString (src : List UInt8) : GoString :=
  src.flatMap fun v => [hextable.getD (v.toNat >>> 4) 0, hextable.getD (v.toNat &&& 0x0f) 0]

/-- A byte that is one of the characters `0`-`9` or `a`-`f`. -/
def isLowerHex (c : UInt8) : Prop :=
  (0x30 ≤ c.toNat ∧ c.toNat ≤ 0x39) ∨ (0x61 ≤ c.toNat ∧ c.toNat ≤ 0x66)

instance (c : UInt8) : Decidable (isLowerHex c) := by
  unfold isLowerHex; infer_instance

/-! ## The data model and the store (`main.go`, lines 12-61) -/

/-- The Go struct `URL`. -/
structure URL where
  Id : GoString
  OriginalURL : GoString
  ShortURL : GoString
  CreationDate : Time
deriving DecidableEq, Repr

/-- The zero value `URL{}`. -/
def URL.zero : URL := ⟨[], [], [], 0⟩

/-- A value of type `map[string]URL`: the entries, looked up from the head; the
assignment `m[k] = v` leaves one entry under `k`. -/
abbrev Store := List (GoString × URL)

/-- The initial value of the global: `var urlDB = make(map[string]URL)`. -/
def urlDB : Store := []

/-- The lookup `v, ok := m[k]` (`none` when `ok` is false). -/
def Store.get : Store → GoString → Option URL
  | [], _ => none
  | e :: rest, k => if e.1 = k then some e.2 else Store.get rest k

/-- The map without its entries under `k`. -/
def Store.erase : Store → GoString → Store
  | [], _ => []
  | e :: rest, k => if e.1 = k then Store.erase rest k else e :: Store.erase rest k

/-- The assignment `m[k] = v`: any entry under `k` is replaced. -/
def Store.set (m : Store) (k : GoString) (v : URL) : Store :=
  (k, v) :: m.erase k

/-- The keys of a map. -/
def Store.keys (m : Store) : List GoString := m.map Prod.fst

/-- The source function `genrateShortURL`. -/
def genrateShortURL (OriginalURL : GoString) : Except Panic GoString :=
  let hasher := md5New
  let hasher := hasher.Write OriginalURL
  let data := hasher.Sum []
  let hash := hexEncodeToString data
  sliceTo hash 8

/-- The lowercase hexadecimal digit of a number below 16, as a character. -/
def hexDigit (n : Nat) : UInt8 :=
  UInt8.ofNat (if n < 10 then 0x30 + n else 0x57 + n)

/-- The lowercase hexadecimal encoding of a byte sequence as the specification words
it: for each byte the digit of its quotient by 16, then the digit of its remainder. -/
def hexLower (bs : List UInt8) : GoString :=
  bs.flatMap fun b => [hexDigit (b.toNat / 16), hexDigit (b.toNat % 16)]

/-- The short code of a url: the hexadecimal form of the first four bytes of its MD5
digest. -/
def shortCode (u : GoString) : GoString :=
  hexEncodeToString ((md5Sum u).take 4)

/-- The source function `createUrl`, with the store it leaves behind. -/
def createUrl (db : Store) (now : Time) (OriginalURL : GoString) :
    Except Panic (GoString × Store) := do
  let shorturl ← genrateShortURL OriginalURL
  let id := shorturl
  let db := db.set id ⟨id, OriginalURL, shorturl, now⟩
  return (shorturl, db)

/-- A Go `error` value: `none` is `nil`, `some msg` an error whose `Error()` is `msg`. -/
abbrev GoError := Option GoString

/-- The source function `getUrl`; it only reads the store. -/
def getUrl (db : Store) (id : GoString) : URL × GoError :=
  match db.get id with
  | some url => (url, none)
  | none => (URL.zero, some (str "url not found"))

/-- A finite sequence of `createUrl` calls, each at its own time: the codes returned,
in order, and the final store. -/
def createAll : Store → List (Time × GoString) → Except Panic (List GoString × Store)
  | db, [] => .ok ([], db)
  | db, (now, u) :: rest => do
    let (code, db1) ← createUrl db now u
    let (codes, db2) ← createAll db1 rest
    return (code :: codes, db2)

/-! ## `net/http` and `encoding/json` -/

/-- The parts of an `*http.Request` the handlers read: `r.Method`, `r.URL.Path` and the
bytes of `r.Body`. -/
structure Request where
  Method : GoString
  Path : GoString
  Body : GoString

/-- The reply an `http.ResponseWriter` has collected: the header map, the status line
(`none` until the header is written) and the body bytes. -/
structure ResponseWriter where
  header : List (GoString × GoString)
  status : Option Nat
  body : GoString
deriving DecidableEq, Repr

/-- The writer the server hands to a handler: nothing set, nothing written. -/
def ResponseWriter.fresh : ResponseWriter := ⟨[], none, []⟩

/-- The constant `http.StatusFound`. -/
def StatusFound : Nat := 302

/-- The constant `http.StatusBadRequest`. -/
def StatusBadRequest : Nat := 400

/-- The constant `http.StatusNotFound`. -/
def StatusNotFound : Nat := 404

/-- The constant `http.StatusOK`, the status of a reply whose header is written by the
first `Write`. -/
def StatusOK : Nat := 200

/-- The call `w.Header().Set(key, value)`. -/
def ResponseWriter.setHeader (w : ResponseWriter) (key value : GoString) : ResponseWriter :=
  { w with header := (key, value) :: w.header.filter (fun e => e.1 ≠ key) }

/-- The call `w.Header().Get(key)`. -/
def ResponseWriter.getHeader (w : ResponseWriter) (key : GoString) : Option GoString :=
  (w.header.find? (fun e => e.1 = key)).map Prod.snd

/-- The call `w.WriteHeader(code)`; a second call has no effect on the reply. -/
def ResponseWriter.WriteHeader (w : ResponseWriter) (code : Nat) : ResponseWriter :=
  match w.status with
  | some _ => w
  | none => { w with status := some code }

/-- The call `w.Write(p)`: it first writes the header with status 200 when none was
written. -/
def ResponseWriter.Write (w : ResponseWriter) (p : GoString) : ResponseWriter :=
  let w := w.WriteHeader StatusOK
  { w with body := w.body ++ p }

/-- The call `http.Error(w, error, code)`: a plain-text reply with the given status whose
body is the message and a line feed (`fmt.Fprintln`). -/
def httpError (w : ResponseWriter) (error : GoString) (code : Nat) : ResponseWriter :=
  let w := w.setHeader (str "Content-Type") (str "text/plain; charset=utf-8")
  let w := w.setHeader (str "X-Content-Type-Options") (str "nosniff")
  let w := w.WriteHeader code
  w.Write (error ++ str "\n")

/-- The call `path.Split(p)`, first result: `p` up to and including its last `/` (empty
when `p` has none). -/
def pathDir (p : GoString) : GoString :=
  (p.reverse.dropWhile (fun b => b ≠ 0x2f)).reverse

/-- The elements of a path: the runs of bytes between its `/` separators. -/
def pathElements : GoString → List GoString
  | [] => [[]]
  | b :: rest =>
    if b = 0x2f then [] :: pathElements rest
    else
      match pathElements rest with
      | [] => [[b]]
      | e :: es => (b :: e) :: es

/-- One step of `path.Clean`: the elements kept so far (last one first) and the next
element.  Empty and `.` elements are dropped, `..` removes the element before it, or
is kept when there is none to remove and the path is not rooted. -/
def pathCleanStep (rooted : Bool) (kept : List GoString) (e : GoString) : List GoString :=
  if e = [] ∨ e = str "." then kept
  else if e = str ".." then
    match kept with
    | [] => if rooted then [] else [e]
    | top :: below => if top = str ".." then e :: kept else below
  else e :: kept

/-- The call `path.Clean(p)`: the shortest path equivalent to `p` by purely lexical
processing. -/
def pathClean (p : GoString) : GoString :=
  match p with
  | [] => str "."
  | b :: _ =>
    let rooted : Bool := b = 0x2f
    let kept := (pathElements p).foldl (pathCleanStep rooted) []
    let joined := (str "/").intercalate kept.reverse
    if rooted then 0x2f :: joined
    else if joined = [] then str "." else joined

/-- The library function `hexEscapeNonASCII`: every byte from `0x80` up becomes `%` and
its two lowercase hexadecimal digits. -/
def hexEscapeNonASCII (s : GoString) : GoString :=
  s.flatMap fun b =>
    if b.toNat < 0x80 then [b]
    else [0x25, hextable.getD (b.toNat >>> 4) 0, hextable.getD (b.toNat &&& 0x0f) 0]

/-- The library function `htmlEscape`: `&`, `<`, `>`, the double quote and the apostrophe
are replaced by character references. -/
def htmlEscape (s : GoString) : GoString :=
  s.flatMap fun b =>
    if b = 0x26 then str "&amp;"
    else if b = 0x3c then str "&lt;"
    else if b = 0x3e then str "&gt;"
    else if b = 0x22 then str "&#34;"
    else if b = 0x27 then str "&#39;"
    else [b]

/-- The call `http.StatusText(code)`; the empty string for an unknown code. -/
def StatusText (code : Nat) : GoString :=
  match code with
  | 100 => str "Continue"
  | 101 => str "Switching Protocols"
  | 102 => str "Processing"
  | 103 => str "Early Hints"
  | 200 => str "OK"
  | 201 => str "Created"
  | 202 => str "Accepted"
  | 203 => str "Non-Authoritative Information"
  | 204 => str "No Content"
  | 205 => str "Reset Content"
  | 206 => str "Partial Content"
  | 207 => str "Multi-Status"
  | 208 => str "Already Reported"
  | 226 => str "IM Used"
  | 300 => str "Multiple Choices"
  | 301 => str "Moved Permanently"
  | 302 => str "Found"
  | 303 => str "See Other"
  | 304 => str "Not Modified"
  | 305 => str "Use Proxy"
  | 307 => str "Temporary Redirect"
  | 308 => str "Permanent Redirect"
  | 400 => str "Bad Request"
  | 401 => str "Unauthorized"
  | 402 => str "Payment Required"
  | 403 => str "Forbidden"
  | 404 => str "Not Found"
  | 405 => str "Method Not Allowed"
  | 406 => str "Not Acceptable"
  | 407 => str "Proxy Authentication Required"
  | 408 => str "Request Timeout"
  | 409 => str "Conflict"
  | 410 => str "Gone"
  | 411 => str "Length Required"
  | 412 => str "Precondition Failed"
  | 413 => str "Request Entity Too Large"
  | 414 => str "Request URI Too Long"
  | 415 => str "Unsupported Media Type"
  | 416 => str "Requested Range Not Satisfiable"
  | 417 => str "Expectation Failed"
  | 418 => str "I'm a teapot"
  | 421 => str "Misdirected Request"
  | 422 => str "Unprocessable Entity"
  | 423 => str "Locked"
  | 424 => str "Failed Dependency"
  | 425 => str "Too Early"
  | 426 => str "Upgrade Required"
  | 428 => str "Precondition Required"
  | 429 => str "Too Many Requests"
  | 431 => str "Request Header Fields Too Large"
  | 451 => str "Unavailable For Legal Reasons"
  | 500 => str "Internal Server Error"
  | 501 => str "Not Implemented"
  | 502 => str "Bad Gateway"
  | 503 => str "Service Unavailable"
  | 504 => str "Gateway Timeout"
  | 505 => str "HTTP Version Not Supported"
  | 506 => str "Variant Also Negotiates"
  | 507 => str "Insufficient Storage"
  | 508 => str "Loop Detected"
  | 510 => str "Not Extended"
  | 511 => str "Network Authentication Required"
  | _ => []

/-- A byte that may stand anywhere in a URL scheme: an ASCII letter. -/
def isSchemeLetter (c : UInt8) : Bool :=
  (0x61 ≤ c.toNat && c.toNat ≤ 0x7a) || (0x41 ≤ c.toNat && c.toNat ≤ 0x5a)

/-- A byte that may stand in a URL scheme after its first byte: a digit, `+`, `-`, `.`. -/
def isSchemeOther (c : UInt8) : Bool :=
  (0x30 ≤ c.toNat && c.toNat ≤ 0x39) || c.toNat = 0x2b || c.toNat = 0x2d || c.toNat = 0x2e

/-- The loop of the library function `getScheme` from position `i`, with the bytes read so
far: the scheme before the first colon (empty when the text has no scheme), or `none`
for the error "missing protocol scheme". -/
def getSchemeFrom : Nat → GoString → GoString → Option GoString
  | _, _, [] => some []
  | i, seen, c :: rest =>
    if isSchemeLetter c then getSchemeFrom (i + 1) (seen ++ [c]) rest
    else if isSchemeOther c then
      if i = 0 then some [] else getSchemeFrom (i + 1) (seen ++ [c]) rest
    else if c = 0x3a then
      if i = 0 then none else some seen
    else some []

/-- The library function `getScheme` of `net/url`. -/
def getScheme (rawURL : GoString) : Option GoString := getSchemeFrom 0 [] rawURL

/-- Whether the text up to its fragment starts with a URL scheme and a colon, as
`getScheme` reads it. -/
def startsWithScheme (url : GoString) : Bool :=
  match getScheme (url.takeWhile (fun b => b ≠ 0x23)) with
  | some (_ :: _) => true
  | _ => false

/-- Whether `url.Parse(url)` returns no error and a URL whose `Scheme` and `Host` are both
empty.  The parser first cuts the fragment, refuses ASCII control bytes and reads the
scheme; these steps are made here.  `parsesRelative url` stands for the outcome of the
whole parse (authority, path and fragment included), which is not modelled. -/
def isRelativeRef (parsesRelative : GoString → Bool) (url : GoString) : Bool :=
  let u := url.takeWhile (fun b => b ≠ 0x23)
  !(u.any fun b => b.toNat < 0x20 || b.toNat = 0x7f) && getScheme u == some []
    && parsesRelative url

/-- The url `http.Redirect` writes for a url without scheme and host: made absolute
against the directory of the request path, then cleaned with its trailing slash and
query kept. -/
def resolveRelative (requestPath url : GoString) : GoString :=
  let oldpath := if requestPath = [] then str "/" else requestPath
  let url := if url.head? = some 0x2f then url else pathDir oldpath ++ url
  let query := url.dropWhile (fun b => b ≠ 0x3f)
  let url := url.takeWhile (fun b => b ≠ 0x3f)
  let trailing : Bool := url.getLast? = some 0x2f
  let url := pathClean url
  let url := if trailing && url.getLast? != some 0x2f then url ++ str "/" else url
  url ++ query

/-- The call `http.Redirect(w, r, url, code)`: the `Location` header is `url`, resolved
against the request path when `url.Parse` reads it as a reference without scheme and
host, with its non-ASCII bytes percent-escaped; a GET gets a short HTML body. -/
def httpRedirect (parsesRelative : GoString → Bool) (w : ResponseWriter) (r : Request)
    (url : GoString) (code : Nat) : ResponseWriter :=
  let url := if isRelativeRef parsesRelative url then resolveRelative r.Path url else url
  let hadCT : Bool := (w.getHeader (str "Content-Type")).isSome
  let w := w.setHeader (str "Location") (hexEscapeNonASCII url)
  let w :=
    if !hadCT && (r.Method = str "GET" || r.Method = str "HEAD") then
      w.setHeader (str "Content-Type") (str "text/html; charset=utf-8")
    else w
  let w := w.WriteHeader code
  if !hadCT && r.Method = str "GET" then
    w.Write (str "<a href=\"" ++ htmlEscape url ++ str "\">" ++ StatusText code
      ++ str "</a>.\n" ++ str "\n")
  else w

/-- A byte the JSON encoder copies unchanged into a string (`htmlSafeSet`): printable
ASCII other than the double quote, the backslash, `<`, `>` and `&`. -/
def jsonSafe (b : UInt8) : Bool :=
  0x20 ≤ b.toNat && b.toNat < 0x80 && b.toNat != 0x22 && b.toNat != 0x5c
    && b.toNat != 0x3c && b.toNat != 0x3e && b.toNat != 0x26

/-- The escape the JSON encoder writes for an ASCII byte outside `jsonSafe` (as of
Go 1.22; earlier releases write backspace and form feed in the `u00XX` form). -/
def jsonEscapeByte (b : UInt8) : GoString :=
  if b.toNat = 0x5c ∨ b.toNat = 0x22 then [0x5c, b]
  else if b.toNat = 0x08 then [0x5c, 0x62]
  else if b.toNat = 0x0c then [0x5c, 0x66]
  else if b.toNat = 0x0a then [0x5c, 0x6e]
  else if b.toNat = 0x0d then [0x5c, 0x72]
  else if b.toNat = 0x09 then [0x5c, 0x74]
  else
    [0x5c, 0x75, 0x30, 0x30, hextable.getD (b.toNat >>> 4) 0,
      hextable.getD (b.toNat &&& 0x0f) 0]

/-- A UTF-8 continuation byte. -/
def isCont (b : UInt8) : Bool := 0x80 ≤ b.toNat && b.toNat ≤ 0xbf

/-- The call `utf8.DecodeRuneInString` on the bytes given: the rune and its width; a
malformed or cut encoding gives `(0xFFFD, 1)`, the empty input `(0xFFFD, 0)`. -/
def decodeRune : List UInt8 → Nat × Nat
  | [] => (0xFFFD, 0)
  | b0 :: rest =>
    let x := b0.toNat
    if x < 0x80 then (x, 1)
    else if 0xc2 ≤ x ∧ x ≤ 0xdf then
      match rest with
      | b1 :: _ =>
        if isCont b1 then (((x &&& 0x1f) <<< 6) ||| (b1.toNat &&& 0x3f), 2) else (0xFFFD, 1)
      | _ => (0xFFFD, 1)
    else if 0xe0 ≤ x ∧ x ≤ 0xef then
      match rest with
      | b1 :: b2 :: _ =>
        if (if x = 0xe0 then 0xa0 else 0x80) ≤ b1.toNat
            ∧ b1.toNat ≤ (if x = 0xed then 0x9f else 0xbf) ∧ isCont b2 then
          (((x &&& 0x0f) <<< 12) ||| ((b1.toNat &&& 0x3f) <<< 6) ||| (b2.toNat &&& 0x3f), 3)
        else (0xFFFD, 1)
      | _ => (0xFFFD, 1)
    else if 0xf0 ≤ x ∧ x ≤ 0xf4 then
      match rest with
      | b1 :: b2 :: b3 :: _ =>
        if (if x = 0xf0 then 0x90 else 0x80) ≤ b1.toNat
            ∧ b1.toNat ≤ (if x = 0xf4 then 0x8f else 0xbf) ∧ isCont b2 ∧ isCont b3 then
          (((x &&& 0x07) <<< 18) ||| ((b1.toNat &&& 0x3f) <<< 12)
            ||| ((b2.toNat &&& 0x3f) <<< 6) ||| (b3.toNat &&& 0x3f), 4)
        else (0xFFFD, 1)
      | _ => (0xFFFD, 1)
    else (0xFFFD, 1)

/-- The body of a JSON string as `encoding/json` writes it with HTML escaping on (the
default of an `Encoder`): safe ASCII is copied, other ASCII escaped, malformed UTF-8
replaced by the escape of U+FFFD, U+2028 and U+2029 escaped, other runes copied.  The
first argument bounds the number of steps; the length of the input is enough. -/
def jsonStringBody : Nat → List UInt8 → GoString
  | 0, _ => []
  | _, [] => []
  | fuel + 1, b :: rest =>
    if b.toNat < 0x80 then
      (if jsonSafe b then [b] else jsonEscapeByte b) ++ jsonStringBody fuel rest
    else
      let cs := decodeRune (b :: rest)
      if cs.1 = 0xFFFD ∧ cs.2 = 1 then
        [0x5c, 0x75, 0x66, 0x66, 0x66, 0x64] ++ jsonStringBody fuel rest
      else if cs.1 = 0x2028 ∨ cs.1 = 0x2029 then
        [0x5c, 0x75, 0x32, 0x30, 0x32, hextable.getD (cs.1 &&& 0x0f) 0]
          ++ jsonStringBody fuel ((b :: rest).drop cs.2)
      else (b :: rest).take cs.2 ++ jsonStringBody fuel ((b :: rest).drop cs.2)

/-- The JSON text of a Go string: the escaped body between double quotes. -/
def jsonString (s : GoString) : GoString :=
  [0x22] ++ jsonStringBody s.length s ++ [0x22]

/-- The call `json.NewEncoder(w).Encode(response)` for `response` of type
`struct { ShortURL string }` tagged `json:"short_url"`: one JSON object and a line
feed, written to `w`. -/
def jsonEncodeShortURL (w : ResponseWriter) (ShortURL : GoString) : ResponseWriter :=
  w.Write (str "\x7b\"short_url\":" ++ jsonString ShortURL ++ str "\x7d\n")

/-! ## The handlers (`main.go`, lines 63-109) -/

/-- The source function `handler` (the line printed to standard output is not part of
the reply). -/
def handler (w : ResponseWriter) (_r : Request) : ResponseWriter :=
  w.Write (str "Hello World")

/-- The source function `shortUrlHandler`.  `jsonDecode body` stands for
`json.NewDecoder(r.Body).Decode(&data)` on `data` of type `struct { URL string }` tagged
`json:"url"`: the message of the error returned, or `data.URL` after a decode without
error. -/
def shortUrlHandler (jsonDecode : GoString → Except GoString GoString)
    (db : Store) (now : Time) (w : ResponseWriter) (r : Request) :
    Except Panic (ResponseWriter × Store) :=
  match jsonDecode r.Body with
  | .error err => .ok (httpError w err StatusBadRequest, db)
  | .ok dataURL => do
    let (shorturl, db) ← createUrl db now dataURL
    let w := w.setHeader (str "Content-Type") (str "application/json")
    let w := jsonEncodeShortURL w shorturl
    return (w, db)

/-- The expression `r.URL.Path[len("/redirect/"):]` of `redirectUrlHandler`: the code
the handler looks up. -/
def redirectId (path : GoString) : Except Panic GoString :=
  sliceFrom path (str "/redirect/").length

/-- The source function `redirectUrlHandler`.  `parsesRelative` stands for the outcome
of `url.Parse` inside `http.Redirect` (see `isRelativeRef`). -/
def redirectUrlHandler (parsesRelative : GoString → Bool) (db : Store) (w : ResponseWriter)
    (r : Request) : Except Panic (ResponseWriter × Store) := do
  let id ← redirectId r.Path
  match getUrl db id with
  | (_, some err) => return (httpError w err StatusNotFound, db)
  | (url, none) =>
    return (httpRedirect parsesRelative w r url.OriginalURL StatusFound, db)

/-- The final segment of a path: the text after its last `/` (the whole path when it
has none). -/
def lastSegment (path : GoString) : GoString :=
  (path.reverse.takeWhile (fun b => b ≠ 0x2f)).reverse

/-- Whether `needle` occurs in `s` as a contiguous run of bytes (`strings.Contains`). -/
def containsBytes (s needle : GoString) : Bool :=
  s.tails.any (fun t => needle.isPrefixOf t)

/-- A decoder for the examples: on the request body of the specification's shorten
scenario it yields the url, on any other body the error Go's decoder reports for the
body `not-json`. -/
def scenarioDecode (body : GoString) : Except GoString GoString :=
  if body = str "\x7b\"url\": \"https://www.google.com\"\x7d" then
    .ok (str "https://www.google.com")
  else .error (str "invalid character 'o' in literal null (expecting 'u')")

/-! ## Lemmas on the digest and its hexadecimal form -/

theorem leBytes_length (n x : Nat) : (leBytes n x).length = n := by
  induction n generalizing x with
  | zero => rfl
  | succ n ih => simp [leBytes, ih]

theorem md5Sum_length (msg : List UInt8) : (md5Sum msg).length = 16 := by
  simp [md5Sum, leBytes_length]

theorem hexEncodeToString_cons (v : UInt8) (src : List UInt8) :
    hexEncodeToString (v :: src) =
      hextable.getD (v.toNat >>> 4) 0 :: hextable.getD (v.toNat &&& 0x0f) 0
        :: hexEncodeToString src := by
  simp [hexEncodeToString, List.flatMap_cons]

theorem hexEncodeToString_length (src : List UInt8) :
    (hexEncodeToString src).length = 2 * src.length := by
  induction src with
  | nil => rfl
  | cons v rest ih => rw [hexEncodeToString_cons]; simp [ih]; omega

theorem hexEncodeToString_take (n : Nat) (src : List UInt8) :
    (hexEncodeToString src).take (2 * n) = hexEncodeToString (src.take n) := by
  induction n generalizing src with
  | zero => simp [hexEncodeToString]
  | succ n ih =>
    cases src with
    | nil => simp [hexEncodeToString]
    | cons v rest =>
      have h : 2 * (n + 1) = 2 * n + 1 + 1 := by omega
      rw [hexEncodeToString_cons, h, List.take_succ_cons, List.take_succ_cons, ih,
        List.take_succ_cons, hexEncodeToString_cons]

theorem hextable_isLowerHex (i : Nat) (h : i < 16) : isLowerHex (hextable.getD i 0) := by
  interval_cases i <;> decide

theorem hexEncodeToString_isLowerHex (src : List UInt8) :
    ∀ c ∈ hexEncodeToString src, isLowerHex c := by
  induction src with
  | nil => intro c hc; simp [hexEncodeToString] at hc
  | cons v rest ih =>
    intro c hc
    rw [hexEncodeToString_cons] at hc
    have hv : v.toNat < 256 := UInt8.toNat_lt_size v
    rcases List.mem_cons.mp hc with rfl | hc
    · apply hextable_isLowerHex
      rw [Nat.shiftRight_eq_div_pow]
      omega
    · rcases List.mem_cons.mp hc with rfl | hc
      · apply hextable_isLowerHex
        have : v.toNat &&& 0x0f ≤ 0x0f := Nat.and_le_right
        omega
      · exact ih c hc

theorem hextable_eq_hexDigit (i : Nat) (h : i < 16) : hextable.getD i 0 = hexDigit i := by
  interval_cases i <;> decide

theorem hexEncodeToString_eq_hexLower (src : List UInt8) :
    hexEncodeToString src = hexLower src := by
  induction src with
  | nil => rfl
  | cons v rest ih =>
    have hv : v.toNat < 256 := UInt8.toNat_lt_size v
    have hhi : v.toNat >>> 4 = v.toNat / 16 := by rw [Nat.shiftRight_eq_div_pow]
    have hlo : v.toNat &&& 0x0f = v.toNat % 16 := by
      simpa using Nat.and_pow_two_sub_one_eq_mod v.toNat 4
    rw [hexEncodeToString_cons, ih, hhi, hlo, hextable_eq_hexDigit _ (by omega),
      hextable_eq_hexDigit _ (by omega)]
    simp [hexLower, List.flatMap_cons]

theorem shortCode_length (u : GoString) : (shortCode u).length = 8 := by
  simp [shortCode, hexEncodeToString_length, md5Sum_length]

theorem genrateShortURL_eq (u : GoString) : genrateShortURL u = .ok (shortCode u) := by
  have hlen : 8 ≤ (hexEncodeToString (md5Sum u)).length := by
    rw [hexEncodeToString_length, md5Sum_length]; omega
  have htake := hexEncodeToString_take 4 (md5Sum u)
  simp only [genrateShortURL, md5New, Md5Hasher.Write, Md5Hasher.Sum, List.nil_append, sliceTo,
    shortCode]
  rw [if_pos hlen]
  exact congrArg Except.ok htake

/-! ## Lemmas on the store -/

theorem Store.get_erase_ne (m : Store) (k k' : GoString) (h : k' ≠ k) :
    Store.get (m.erase k) k' = Store.get m k' := by
  induction m with
  | nil => rfl
  | cons e rest ih =>
    by_cases hk : e.1 = k
    · have hne : e.1 ≠ k' := fun h' => h (h'.symm.trans hk)
      simp only [Store.erase, hk, if_true, Store.get]
      rw [if_neg (hk ▸ hne), ← ih]
    · by_cases hk' : e.1 = k'
      · rw [Store.erase, if_neg hk, Store.get, if_pos hk', Store.get, if_pos hk']
      · rw [Store.erase, if_neg hk, Store.get, if_neg hk', Store.get, if_neg hk', ih]

theorem Store.get_erase_self (m : Store) (k : GoString) : Store.get (m.erase k) k = none := by
  induction m with
  | nil => rfl
  | cons e rest ih =>
    by_cases hk : e.1 = k
    · simp only [Store.erase, hk, if_true, ih]
    · simp only [Store.erase, hk, if_false, Store.get, ih]

theorem Store.mem_erase (m : Store) (k : GoString) (e : GoString × URL) :
    e ∈ m.erase k ↔ e ∈ m ∧ e.1 ≠ k := by
  induction m with
  | nil => simp [Store.erase]
  | cons e' rest ih =>
    by_cases hk : e'.1 = k
    · simp only [Store.erase, hk, if_true, ih, List.mem_cons]
      constructor
      · rintro ⟨h1, h2⟩; exact ⟨Or.inr h1, h2⟩
      · rintro ⟨h1 | h1, h2⟩
        · exact absurd (h1 ▸ hk) h2
        · exact ⟨h1, h2⟩
    · simp only [Store.erase, hk, if_false, List.mem_cons, ih]
      constructor
      · rintro (h1 | ⟨h1, h2⟩)
        · exact ⟨Or.inl h1, h1 ▸ hk⟩
        · exact ⟨Or.inr h1, h2⟩
      · rintro ⟨h1 | h1, h2⟩
        · exact Or.inl h1
        · exact Or.inr ⟨h1, h2⟩

theorem Store.erase_erase (m : Store) (k : GoString) : (m.erase k).erase k = m.erase k := by
  induction m with
  | nil => rfl
  | cons e rest ih =>
    by_cases hk : e.1 = k
    · simp only [Store.erase, hk, if_true, ih]
    · simp only [Store.erase, hk, if_false, ih]

theorem Store.filter_eq_erase (m : Store) (k : GoString) :
    (m.erase k).filter (fun e => e.1 = k) = [] := by
  rw [List.filter_eq_nil_iff]
  intro e he
  have := (Store.mem_erase m k e).mp he
  simpa using this.2

theorem Store.get_set_self (m : Store) (k : GoString) (v : URL) :
    (m.set k v).get k = some v := by
  simp [Store.set, Store.get]

theorem Store.get_set_ne (m : Store) (k k' : GoString) (v : URL) (h : k' ≠ k) :
    (m.set k v).get k' = m.get k' := by
  have hne : k ≠ k' := fun h' => h h'.symm
  simp only [Store.set, Store.get, hne, if_false]
  exact Store.get_erase_ne m k k' h

theorem Store.get_eq_none_iff (m : Store) (k : GoString) : m.get k = none ↔ k ∉ m.keys := by
  induction m with
  | nil => simp [Store.get, Store.keys]
  | cons e rest ih =>
    by_cases hk : e.1 = k
    · simp [Store.get, Store.keys, hk]
    · have hk' : ¬ k = e.1 := fun h => hk h.symm
      simp only [Store.get, hk, if_false, ih, Store.keys, List.map_cons, List.mem_cons, hk',
        false_or]

theorem Store.mem_keys_set (m : Store) (k k' : GoString) (v : URL) :
    k' ∈ (m.set k v).keys ↔ k' = k ∨ k' ∈ m.keys := by
  simp only [Store.keys, Store.set, List.map_cons, List.mem_cons, List.mem_map, Store.mem_erase]
  constructor
  · rintro (h | ⟨e, ⟨he, _⟩, rfl⟩)
    · exact Or.inl h
    · exact Or.inr ⟨e, he, rfl⟩
  · rintro (h | ⟨e, he, rfl⟩)
    · exact Or.inl h
    · by_cases hk : e.1 = k
      · exact Or.inl hk
      · exact Or.inr ⟨e, ⟨he, hk⟩, rfl⟩

theorem Store.set_set (m : Store) (k : GoString) (v v' : URL) :
    (m.set k v).set k v' = m.set k v' := by
  simp [Store.set, Store.erase, Store.erase_erase]

theorem Store.filter_eq_set (m : Store) (k : GoString) (v : URL) :
    (m.set k v).filter (fun e => e.1 = k) = [(k, v)] := by
  simp [Store.set, List.filter, Store.filter_eq_erase]

theorem Store.erase_set (m : Store) (k : GoString) (v : URL) :
    (m.set k v).erase k = m.erase k := by
  simp [Store.set, Store.erase, Store.erase_erase]

theorem createUrl_eq (db : Store) (now : Time) (u : GoString) :
    createUrl db now u =
      .ok (shortCode u, db.set (shortCode u) ⟨shortCode u, u, shortCode u, now⟩) := by
  simp only [createUrl, genrateShortURL_eq]
  rfl

theorem getUrl_of_get_some (db : Store) (id : GoString) (r : URL) (h : db.get id = some r) :
    getUrl db id = (r, none) := by
  simp [getUrl, h]

theorem getUrl_of_get_none (db : Store) (id : GoString) (h : db.get id = none) :
    getUrl db id = (URL.zero, some (str "url not found")) := by
  simp [getUrl, h]

theorem createAll_cons (db : Store) (now : Time) (u : GoString) (rest : List (Time × GoString))
    (codes : List GoString) (s : Store)
    (h : createAll (db.set (shortCode u) ⟨shortCode u, u, shortCode u, now⟩) rest
      = .ok (codes, s)) :
    createAll db ((now, u) :: rest) = .ok (shortCode u :: codes, s) := by
  simp only [createAll, createUrl_eq, bind, Except.bind, h]
  rfl

theorem createAll_keys (calls : List (Time × GoString)) (db : Store) :
    ∃ codes s, createAll db calls = .ok (codes, s) ∧
      ∀ k, k ∈ s.keys ↔ k ∈ codes ∨ k ∈ db.keys := by
  induction calls generalizing db with
  | nil => exact ⟨[], db, rfl, by simp⟩
  | cons c rest ih =>
    obtain ⟨now, u⟩ := c
    obtain ⟨codes, s, hrun, hkeys⟩ :=
      ih (db.set (shortCode u) ⟨shortCode u, u, shortCode u, now⟩)
    refine ⟨shortCode u :: codes, s, createAll_cons db now u rest codes s hrun, ?_⟩
    intro k
    rw [hkeys k, Store.mem_keys_set, List.mem_cons]
    tauto

theorem createAll_records (calls : List (Time × GoString)) (db : Store)
    (hdb : ∀ k r, (k, r) ∈ db →
      r.Id = k ∧ r.ShortURL = r.Id ∧ genrateShortURL r.OriginalURL = .ok k ∧ k.length = 8) :
    ∃ codes s, createAll db calls = .ok (codes, s) ∧
      ∀ k r, (k, r) ∈ s →
        r.Id = k ∧ r.ShortURL = r.Id ∧ genrateShortURL r.OriginalURL = .ok k ∧ k.length = 8 := by
  induction calls generalizing db with
  | nil => exact ⟨[], db, rfl, hdb⟩
  | cons c rest ih =>
    obtain ⟨now, u⟩ := c
    have hstep : ∀ k r, (k, r) ∈ db.set (shortCode u) ⟨shortCode u, u, shortCode u, now⟩ →
        r.Id = k ∧ r.ShortURL = r.Id ∧ genrateShortURL r.OriginalURL = .ok k
          ∧ k.length = 8 := by
      intro k r hmem
      rcases List.mem_cons.mp hmem with heq | hold
      · obtain ⟨rfl, rfl⟩ := Prod.mk.inj heq
        exact ⟨rfl, rfl, genrateShortURL_eq u, shortCode_length u⟩
      · exact hdb k r ((Store.mem_erase db _ _).mp hold).1
    obtain ⟨codes, s, hrun, hinv⟩ := ih _ hstep
    exact ⟨shortCode u :: codes, s, createAll_cons db now u rest codes s hrun, hinv⟩

/-! ## The identifier generator: claims C2, C3 -/

/-- The MD5 test suite of RFC 1321 (section A.5) and the url of the specification's
scenario. -/
theorem md5Sum_test_suite :
    hexEncodeToString (md5Sum (str "")) = str "d41d8cd98f00b204e9800998ecf8427e" ∧
    hexEncodeToString (md5Sum (str "a")) = str "0cc175b9c0f1b6a831c399e269772661" ∧
    hexEncodeToString (md5Sum (str "abc")) = str "900150983cd24fb0d6963f7d28e17f72" ∧
    hexEncodeToString (md5Sum (str "message digest")) = str "f96b697d7cb7938d525a2f31aaf161d0" ∧
    hexEncodeToString (md5Sum (str "abcdefghijklmnopqrstuvwxyz"))
      = str "c3fcd3d76192e4007dfb496cca67e13b" ∧
    hexEncodeToString
        (md5Sum (str "ABCDEFGHIJKLMNOPQRSTUVWXYZabcdefghijklmnopqrstuvwxyz0123456789"))
      = str "d174ab98d277d9f5a5611c2c9f419d9f" ∧
    hexEncodeToString (md5Sum (str
        "12345678901234567890123456789012345678901234567890123456789012345678901234567890"))
      = str "57edf4a22be3c955ac49da2e2107b67a" ∧
    hexEncodeToString (md5Sum (str "https://www.google.com"))
      = str "8ffdefbdec956b595d257f0aaeefd623" := by
  refine ⟨?_, ?_, ?_, ?_, ?_, ?_, ?_, ?_⟩ <;> decide

/-- C2 (length and character set).  For every input, the empty string included, the
slice `hash[:8]` is in bounds, so `genrateShortURL` returns; what it returns has exactly
8 bytes, each one of `0`-`9`, `a`-`f`. -/
theorem genrateShortURL_eight_lower_hex (u : GoString) :
    8 ≤ (hexEncodeToString ((md5New.Write u).Sum [])).length ∧
    ∃ code, genrateShortURL u = .ok code ∧ code.length = 8 ∧ ∀ c ∈ code, isLowerHex c := by
  refine ⟨?_, shortCode u, genrateShortURL_eq u, shortCode_length u,
    hexEncodeToString_isLowerHex _⟩
  simp [md5New, Md5Hasher.Write, Md5Hasher.Sum, hexEncodeToString_length, md5Sum_length]

/-- C3 (the code is the head of the MD5 digest in hexadecimal).  For every string `u`
(a Go string is its bytes, `[]byte(u)`), the MD5 digest `md5Sum u` has 16 bytes (128
bits), `genrateShortURL u` is the first 8 characters of the lowercase hexadecimal
encoding of that digest, which is the encoding of its first 4 bytes; the empty string
gives "d41d8cd9". -/
theorem genrateShortURL_md5_hex_head (u : GoString) :
    (md5Sum u).length = 16 ∧
    genrateShortURL u = .ok ((hexLower (md5Sum u)).take 8) ∧
    genrateShortURL u = .ok (hexLower ((md5Sum u).take 4)) ∧
    genrateShortURL (str "") = .ok (str "d41d8cd9") := by
  refine ⟨md5Sum_length u, ?_, ?_, ?_⟩
  · rw [genrateShortURL_eq, shortCode, ← hexEncodeToString_take 4,
      hexEncodeToString_eq_hexLower]
  · rw [genrateShortURL_eq, shortCode, hexEncodeToString_eq_hexLower]
  · rw [genrateShortURL_eq]
    exact congrArg Except.ok (by decide)

/-! ## The store contract: claims C1, C4, C5, C9, C10 -/

/-- C1 (round trip).  For every store `s`, time `now` and url `u`, `createUrl` returns
a code and a store (it does not panic), and `getUrl` on that store and code returns a
nil error and a record whose `OriginalURL` is `u`: the record written by the call. -/
theorem createUrl_getUrl_round_trip (s : Store) (now : Time) (u : GoString) :
    ∃ code s', createUrl s now u = .ok (code, s') ∧
      (getUrl s' code).2 = none ∧ (getUrl s' code).1.OriginalURL = u ∧
      getUrl s' code = (⟨code, u, code, now⟩, none) := by
  refine ⟨_, _, createUrl_eq s now u, ?_, ?_, ?_⟩ <;>
    rw [getUrl_of_get_some _ _ _ (Store.get_set_self _ _ _)]

/-- C4 (idempotent overwrite).  For every store `s`, url `u` and times `t1`, `t2`, two
successive calls `createUrl(u)` return the same code; after the second call the store
holds exactly one entry under that code, its record has `CreationDate = t2` and the
`Id` and `OriginalURL` of the record found after the first call, and the keys of the
store are those after the first call. -/
theorem createUrl_twice_overwrites (s : Store) (u : GoString) (t1 t2 : Time) :
    ∃ code s1 s2 r1 r2,
      createUrl s t1 u = .ok (code, s1) ∧ createUrl s1 t2 u = .ok (code, s2) ∧
      getUrl s1 code = (r1, none) ∧ getUrl s2 code = (r2, none) ∧
      s2.filter (fun e => e.1 = code) = [(code, r2)] ∧
      r2.CreationDate = t2 ∧ r2.Id = r1.Id ∧ r2.OriginalURL = r1.OriginalURL ∧
      s2.keys = s1.keys := by
  refine ⟨shortCode u, _, _, ⟨shortCode u, u, shortCode u, t1⟩,
    ⟨shortCode u, u, shortCode u, t2⟩, createUrl_eq s t1 u, createUrl_eq _ t2 u,
    getUrl_of_get_some _ _ _ (Store.get_set_self _ _ _),
    getUrl_of_get_some _ _ _ (Store.get_set_self _ _ _),
    Store.filter_eq_set _ _ _, rfl, rfl, rfl, ?_⟩
  rw [Store.set_set]
  rfl

/-- C5 (miss behaviour).  After any finite sequence of `createUrl` calls on the empty
store, `getUrl(code)` returns the zero record and the error "url not found" for every
code none of the calls returned, and a record with a nil error for every code one of
them returned; and in any store at all, `getUrl` on an absent key returns that error. -/
theorem getUrl_miss_behaviour (calls : List (Time × GoString)) :
    ∃ codes s, createAll urlDB calls = .ok (codes, s) ∧
      (∀ code, code ∉ codes → getUrl s code = (URL.zero, some (str "url not found"))) ∧
      (∀ code, code ∈ codes → ∃ r, getUrl s code = (r, none)) ∧
      (∀ (db : Store) (k : GoString), k ∉ db.keys →
        getUrl db k = (URL.zero, some (str "url not found"))) := by
  obtain ⟨codes, s, hrun, hkeys⟩ := createAll_keys calls urlDB
  refine ⟨codes, s, hrun, ?_, ?_, ?_⟩
  · intro code hcode
    apply getUrl_of_get_none
    rw [Store.get_eq_none_iff, hkeys]
    simp [hcode, urlDB, Store.keys]
  · intro code hcode
    have hmem : code ∈ s.keys := (hkeys code).mpr (Or.inl hcode)
    cases hget : s.get code with
    | none => exact absurd hmem ((Store.get_eq_none_iff s code).mp hget)
    | some r => exact ⟨r, getUrl_of_get_some s code r hget⟩
  · intro db k hk
    exact getUrl_of_get_none db k ((Store.get_eq_none_iff db k).mpr hk)

/-- Witness for C5: after shortening `https://www.google.com` and the empty string,
`doesnotexist` is a miss and the code `8ffdefbd` a hit. -/
theorem getUrl_miss_behaviour_witness :
    ∃ s, createAll urlDB [(1, str "https://www.google.com"), (2, str "")]
        = .ok ([str "8ffdefbd", str "d41d8cd9"], s) ∧
      getUrl s (str "doesnotexist") = (URL.zero, some (str "url not found")) ∧
      ∃ r, getUrl s (str "8ffdefbd") = (r, none) := by
  obtain ⟨codes, s, hrun, hmiss, hhit, _⟩ :=
    getUrl_miss_behaviour [(1, str "https://www.google.com"), (2, str "")]
  have hcodes : codes = [str "8ffdefbd", str "d41d8cd9"] := by
    have heval : createAll urlDB [(1, str "https://www.google.com"), (2, str "")]
        = .ok ([str "8ffdefbd", str "d41d8cd9"],
            [(str "d41d8cd9", ⟨str "d41d8cd9", str "", str "d41d8cd9", 2⟩),
             (str "8ffdefbd",
               ⟨str "8ffdefbd", str "https://www.google.com", str "8ffdefbd", 1⟩)]) := by
      rfl
    rw [heval] at hrun
    exact ((Prod.mk.inj (Except.ok.inj hrun)).1).symm
  subst hcodes
  exact ⟨s, hrun, hmiss _ (by decide), hhit _ (by decide)⟩

/-- C9 (record invariant).  After any finite sequence of `createUrl` calls on the empty
store, every entry `(k, r)` of the store has `r.Id = k`, `r.ShortURL = r.Id` and
`k = genrateShortURL(r.OriginalURL)`, and `k` is 8 bytes long. -/
theorem reachable_record_invariant (calls : List (Time × GoString)) :
    ∃ codes s, createAll urlDB calls = .ok (codes, s) ∧
      ∀ k r, (k, r) ∈ s →
        r.Id = k ∧ r.ShortURL = r.Id ∧ genrateShortURL r.OriginalURL = .ok k ∧ k.length = 8 :=
  createAll_records calls urlDB (fun _ _ h => absurd h (List.not_mem_nil _))

/-- Witness for C9: the record stored for `https://www.google.com`. -/
theorem reachable_record_invariant_witness :
    ∃ s, createAll urlDB [(1, str "https://www.google.com")] = .ok ([str "8ffdefbd"], s) ∧
      ∀ k r, (k, r) ∈ s →
        r.Id = k ∧ r.ShortURL = r.Id ∧ genrateShortURL r.OriginalURL = .ok k ∧ k.length = 8 := by
  obtain ⟨codes, s, hrun, hinv⟩ :=
    reachable_record_invariant [(1, str "https://www.google.com")]
  have heval : createAll urlDB [(1, str "https://www.google.com")]
      = .ok ([str "8ffdefbd"],
          [(str "8ffdefbd",
            ⟨str "8ffdefbd", str "https://www.google.com", str "8ffdefbd", 1⟩)]) := by
    rfl
  have hcodes : codes = [str "8ffdefbd"] := by
    rw [heval] at hrun
    exact ((Prod.mk.inj (Except.ok.inj hrun)).1).symm
  subst hcodes
  exact ⟨s, hrun, hinv⟩

/-- C10 (frame of `createUrl`).  For every store `s`, time and url `u`, `createUrl(u)`
returns the code `genrateShortURL(u)`, every other key gives the same `getUrl` result
before and after the call, and the entries under other keys are the same. -/
theorem createUrl_frame (s : Store) (now : Time) (u : GoString) :
    ∃ code s', createUrl s now u = .ok (code, s') ∧ genrateShortURL u = .ok code ∧
      (∀ k, k ≠ code → getUrl s' k = getUrl s k) ∧
      s'.erase code = s.erase code := by
  refine ⟨_, _, createUrl_eq s now u, genrateShortURL_eq u, ?_, Store.erase_set _ _ _⟩
  intro k hk
  simp only [getUrl, Store.get_set_ne _ _ _ _ hk]

/-- Witness for C10: shortening the empty string (code `d41d8cd9`) in a store that
holds `https://www.google.com` leaves the lookup of `8ffdefbd` as it was. -/
theorem createUrl_frame_witness :
    ∃ s', createUrl
        [(str "8ffdefbd", ⟨str "8ffdefbd", str "https://www.google.com", str "8ffdefbd", 1⟩)]
        2 (str "") = .ok (str "d41d8cd9", s') ∧
      getUrl s' (str "8ffdefbd") =
        (⟨str "8ffdefbd", str "https://www.google.com", str "8ffdefbd", 1⟩, none) := by
  obtain ⟨code, s', hrun, hcode, hframe, _⟩ := createUrl_frame
    [(str "8ffdefbd", ⟨str "8ffdefbd", str "https://www.google.com", str "8ffdefbd", 1⟩)]
    2 (str "")
  have hc : code = str "d41d8cd9" := by
    rw [genrateShortURL_eq] at hcode
    exact (Except.ok.inj hcode).symm.trans (by decide)
  subst hc
  exact ⟨s', hrun, (hframe (str "8ffdefbd") (by decide)).trans (by decide)⟩

/-! ## Lemmas on the replies -/

theorem isLowerHex_jsonSafe (c : UInt8) (h : isLowerHex c) :
    c.toNat < 0x80 ∧ jsonSafe c = true := by
  unfold isLowerHex at h
  refine ⟨by omega, ?_⟩
  simp only [jsonSafe, Bool.and_eq_true, decide_eq_true_eq, bne_iff_ne, ne_eq]
  omega

theorem jsonStringBody_of_safe (s : GoString) (fuel : Nat) (hfuel : s.length ≤ fuel)
    (hs : ∀ c ∈ s, c.toNat < 0x80 ∧ jsonSafe c = true) : jsonStringBody fuel s = s := by
  induction s generalizing fuel with
  | nil => cases fuel <;> rfl
  | cons b rest ih =>
    cases fuel with
    | zero => simp at hfuel
    | succ fuel =>
      have hb := hs b (List.mem_cons_self _ _)
      have hrest := ih fuel (by simpa using hfuel) (fun c hc => hs c (List.mem_cons_of_mem _ hc))
      simp only [jsonStringBody, hb.1, if_true, hb.2, hrest]
      rfl

theorem jsonString_shortCode (u : GoString) :
    jsonString (shortCode u) = str "\"" ++ shortCode u ++ str "\"" := by
  have h := jsonStringBody_of_safe (shortCode u) (shortCode u).length (Nat.le_refl _)
    (fun c hc => isLowerHex_jsonSafe c (hexEncodeToString_isLowerHex _ c hc))
  rw [jsonString, h]
  rfl

theorem containsBytes_append_right (needle tail : GoString) :
    containsBytes (needle ++ tail) needle = true := by
  rw [containsBytes, List.any_eq_true]
  exact ⟨needle ++ tail, (List.mem_tails _ _).mpr (List.suffix_refl _),
    List.isPrefixOf_iff_prefix.mpr (List.prefix_append _ _)⟩

theorem redirectId_append (rest : GoString) :
    redirectId (str "/redirect/" ++ rest) = .ok rest := by
  have hlen : (str "/redirect/").length ≤ (str "/redirect/" ++ rest).length := by
    rw [List.length_append]; omega
  rw [redirectId, sliceFrom, if_pos hlen, List.drop_left]

theorem takeWhile_append_of_all {α : Type} (p : α → Bool) (xs ys : List α)
    (h : ∀ x ∈ xs, p x = true) : (xs ++ ys).takeWhile p = xs ++ ys.takeWhile p := by
  induction xs with
  | nil => rfl
  | cons x rest ih =>
    have hx := h x (List.mem_cons_self _ _)
    rw [List.cons_append, List.takeWhile_cons, if_pos hx,
      ih (fun y hy => h y (List.mem_cons_of_mem _ hy)), List.cons_append]

theorem lastSegment_append_iff (rest : GoString) :
    lastSegment (str "/redirect/" ++ rest) = rest ↔ (0x2f : UInt8) ∉ rest := by
  have hrev : (str "/redirect/").reverse = 0x2f :: (str "/redirect").reverse := by decide
  constructor
  · intro h hmem
    have hin : (0x2f : UInt8) ∈
        ((str "/redirect/" ++ rest).reverse.takeWhile (fun b => b ≠ 0x2f)) := by
      have : (0x2f : UInt8) ∈ lastSegment (str "/redirect/" ++ rest) := by rw [h]; exact hmem
      simpa [lastSegment] using this
    have := List.mem_takeWhile_imp hin
    simp at this
  · intro h
    have hall : ∀ x ∈ rest.reverse, (fun b : UInt8 => decide (b ≠ 0x2f)) x = true := by
      intro x hx
      have hx' : x ∈ rest := List.mem_reverse.mp hx
      have : x ≠ 0x2f := fun hEq => h (hEq ▸ hx')
      simpa using this
    rw [lastSegment, List.reverse_append, takeWhile_append_of_all _ _ _ hall, hrev]
    simp [List.takeWhile]

theorem getHeader_setHeader_self (w : ResponseWriter) (k v : GoString) :
    (w.setHeader k v).getHeader k = some v := by
  simp [ResponseWriter.getHeader, ResponseWriter.setHeader, List.find?]

theorem find_filter_ne (l : List (GoString × GoString)) (k k' : GoString) (h : k' ≠ k) :
    (l.filter (fun e => e.1 ≠ k)).find? (fun e => e.1 = k') = l.find? (fun e => e.1 = k') := by
  induction l with
  | nil => rfl
  | cons e rest ih =>
    rw [List.filter_cons]
    by_cases hk : e.1 = k
    · have hk' : ¬ e.1 = k' := fun h' => h (h'.symm.trans hk)
      rw [if_neg (by simpa using hk), List.find?_cons_of_neg _ (by simpa using hk'), ih]
    · rw [if_pos (by simpa using hk)]
      by_cases hk' : e.1 = k'
      · rw [List.find?_cons_of_pos _ (by simpa using hk'),
          List.find?_cons_of_pos _ (by simpa using hk')]
      · rw [List.find?_cons_of_neg _ (by simpa using hk'),
          List.find?_cons_of_neg _ (by simpa using hk'), ih]

theorem getHeader_setHeader_ne (w : ResponseWriter) (k k' v : GoString) (h : k' ≠ k) :
    (w.setHeader k v).getHeader k' = w.getHeader k' := by
  have hne : ¬ k = k' := fun h' => h h'.symm
  simp only [ResponseWriter.getHeader, ResponseWriter.setHeader, List.find?, hne,
    decide_False]
  rw [find_filter_ne _ _ _ h]

theorem getHeader_WriteHeader (w : ResponseWriter) (code : Nat) (k : GoString) :
    (w.WriteHeader code).getHeader k = w.getHeader k := by
  unfold ResponseWriter.WriteHeader
  cases w.status <;> rfl

theorem getHeader_Write (w : ResponseWriter) (p k : GoString) :
    (w.Write p).getHeader k = w.getHeader k := by
  simp only [ResponseWriter.Write, ResponseWriter.getHeader]
  exact getHeader_WriteHeader w StatusOK k

theorem status_WriteHeader (w : ResponseWriter) (code : Nat) (h : w.status = none) :
    (w.WriteHeader code).status = some code := by
  simp [ResponseWriter.WriteHeader, h]

theorem status_Write_of_some (w : ResponseWriter) (p : GoString) (code : Nat)
    (h : w.status = some code) : (w.Write p).status = some code := by
  simp [ResponseWriter.Write, ResponseWriter.WriteHeader, h]

theorem httpRedirect_location (parsesRelative : GoString → Bool) (w : ResponseWriter)
    (r : Request) (url : GoString) (code : Nat) :
    (httpRedirect parsesRelative w r url code).getHeader (str "Location") =
      some (hexEscapeNonASCII
        (if isRelativeRef parsesRelative url = true then resolveRelative r.Path url
          else url)) := by
  have hne : str "Location" ≠ str "Content-Type" := by decide
  unfold httpRedirect
  simp only []
  split <;> split <;>
    simp only [getHeader_Write, getHeader_WriteHeader, getHeader_setHeader_ne _ _ _ _ hne,
      getHeader_setHeader_self]

theorem httpRedirect_status (parsesRelative : GoString → Bool) (w : ResponseWriter)
    (r : Request) (url : GoString) (code : Nat) (h : w.status = none) :
    (httpRedirect parsesRelative w r url code).status = some code := by
  unfold httpRedirect
  simp only []
  split <;> split <;>
    first
    | exact status_Write_of_some _ _ _
        (status_WriteHeader _ _ (by simpa [ResponseWriter.setHeader] using h))
    | exact status_WriteHeader _ _ (by simpa [ResponseWriter.setHeader] using h)

theorem isRelativeRef_of_startsWithScheme (parsesRelative : GoString → Bool) (url : GoString)
    (h : startsWithScheme url = true) : isRelativeRef parsesRelative url = false := by
  unfold startsWithScheme at h
  dsimp only [isRelativeRef]
  cases hs : getScheme (url.takeWhile (fun b => b ≠ 0x23)) with
  | none =>
    have hne : ((none : Option GoString) == some []) = false := by decide
    rw [hne, Bool.and_false, Bool.false_and]
  | some sch =>
    cases sch with
    | nil => rw [hs] at h; cases h
    | cons c rest =>
      have hne : (some (c :: rest) == some ([] : GoString)) = false := by simp
      rw [hne, Bool.and_false, Bool.false_and]

theorem hexEscapeNonASCII_of_ascii (s : GoString) (h : ∀ b ∈ s, b.toNat < 0x80) :
    hexEscapeNonASCII s = s := by
  induction s with
  | nil => rfl
  | cons b rest ih =>
    have hb := h b (List.mem_cons_self _ _)
    have hrest := ih (fun c hc => h c (List.mem_cons_of_mem _ hc))
    unfold hexEscapeNonASCII at hrest ⊢
    rw [List.flatMap_cons, hrest, if_pos hb]
    rfl

theorem redirectUrlHandler_hit (parsesRelative : GoString → Bool) (db : Store)
    (method body code : GoString) (rec : URL) (hget : db.get code = some rec) :
    redirectUrlHandler parsesRelative db ResponseWriter.fresh
        ⟨method, str "/redirect/" ++ code, body⟩ =
      .ok (httpRedirect parsesRelative ResponseWriter.fresh
        ⟨method, str "/redirect/" ++ code, body⟩ rec.OriginalURL StatusFound, db) := by
  simp only [redirectUrlHandler, redirectId_append, getUrl, hget, bind, Except.bind]
  rfl

theorem redirectUrlHandler_miss (parsesRelative : GoString → Bool) (db : Store)
    (method body code : GoString) (hget : db.get code = none) :
    redirectUrlHandler parsesRelative db ResponseWriter.fresh
        ⟨method, str "/redirect/" ++ code, body⟩ =
      .ok (httpError ResponseWriter.fresh (str "url not found") StatusNotFound, db) := by
  simp only [redirectUrlHandler, redirectId_append, getUrl, hget, bind, Except.bind]
  rfl

/-! ## The handlers: claims C6, C7, C8 -/

/-- C6, the claim as worded fails: the url `https://example.com/é` is stored under its
code `4f84a472`; on `GET /redirect/4f84a472` the handler answers with status 302 and the
`Location` header `https://example.com/%c3%a9`, and whatever `url.Parse` makes of the
url, the header is not the stored `OriginalURL`. -/
theorem redirect_location_not_original :
    createUrl urlDB 1 (str "https://example.com/é") =
      .ok (str "4f84a472", [(str "4f84a472",
        ⟨str "4f84a472", str "https://example.com/é", str "4f84a472", 1⟩)]) ∧
    (∃ w, redirectUrlHandler (fun _ => false)
        [(str "4f84a472", ⟨str "4f84a472", str "https://example.com/é", str "4f84a472", 1⟩)]
        ResponseWriter.fresh ⟨str "GET", str "/redirect/4f84a472", []⟩
          = .ok (w, [(str "4f84a472",
              ⟨str "4f84a472", str "https://example.com/é", str "4f84a472", 1⟩)]) ∧
      w.status = some 302 ∧
      w.getHeader (str "Location") = some (str "https://example.com/%c3%a9")) ∧
    ¬ ∃ parsesRelative w s, redirectUrlHandler parsesRelative
        [(str "4f84a472", ⟨str "4f84a472", str "https://example.com/é", str "4f84a472", 1⟩)]
        ResponseWriter.fresh ⟨str "GET", str "/redirect/4f84a472", []⟩ = .ok (w, s) ∧
      w.getHeader (str "Location") = some (str "https://example.com/é") := by
  refine ⟨by rfl, ⟨_, by rfl, by decide, by decide⟩, ?_⟩
  rintro ⟨parsesRelative, w, s, hrun, hloc⟩
  have hget : Store.get
      [(str "4f84a472", ⟨str "4f84a472", str "https://example.com/é", str "4f84a472", 1⟩)]
      (str "4f84a472")
        = some ⟨str "4f84a472", str "https://example.com/é", str "4f84a472", 1⟩ := by
    decide
  rw [show (str "/redirect/4f84a472") = str "/redirect/" ++ str "4f84a472" by decide,
    redirectUrlHandler_hit _ _ _ _ _ _ hget] at hrun
  obtain ⟨rfl, -⟩ := Prod.mk.inj (Except.ok.inj hrun)
  rw [httpRedirect_location,
    isRelativeRef_of_startsWithScheme _ _ (by decide), if_neg (by simp)] at hloc
  exact absurd (Option.some.inj hloc) (by decide)

/-- C6, amended.  For every store and every request with path `"/redirect/" ++ code`:
the handler returns (it does not panic) and leaves the store as it was.  When `code` is
a key of the store, the reply has status 302, and when the `OriginalURL` of the record
under it is not read as a reference without scheme and host, as is the case whenever
it starts with a URL scheme, the `Location` header is the `OriginalURL` with its
non-ASCII bytes percent-escaped, the `OriginalURL` itself when it is all ASCII.  When
`code` is no key of the store, the reply has status 404 and a body that contains
"url not found". -/
theorem redirectUrlHandler_result (parsesRelative : GoString → Bool) (db : Store)
    (method body code : GoString) :
    ∃ w, redirectUrlHandler parsesRelative db ResponseWriter.fresh
        ⟨method, str "/redirect/" ++ code, body⟩ = .ok (w, db) ∧
      (code ∈ db.keys → ∃ rec, db.get code = some rec ∧ w.status = some 302 ∧
        (isRelativeRef parsesRelative rec.OriginalURL = false →
          w.getHeader (str "Location") = some (hexEscapeNonASCII rec.OriginalURL)) ∧
        (startsWithScheme rec.OriginalURL = true →
          w.getHeader (str "Location") = some (hexEscapeNonASCII rec.OriginalURL)) ∧
        (startsWithScheme rec.OriginalURL = true → (∀ b ∈ rec.OriginalURL, b.toNat < 0x80) →
          w.getHeader (str "Location") = some rec.OriginalURL)) ∧
      (code ∉ db.keys →
        w.status = some 404 ∧ containsBytes w.body (str "url not found") = true) := by
  cases hget : db.get code with
  | none =>
    refine ⟨_, redirectUrlHandler_miss parsesRelative db method body code hget, ?_, ?_⟩
    · intro hmem
      exact absurd hmem ((Store.get_eq_none_iff db code).mp hget)
    · intro _
      exact ⟨rfl, containsBytes_append_right (str "url not found") (str "\n")⟩
  | some rec =>
    refine ⟨_, redirectUrlHandler_hit parsesRelative db method body code rec hget, ?_, ?_⟩
    · intro _
      have hloc : ∀ (h : isRelativeRef parsesRelative rec.OriginalURL = false),
          (httpRedirect parsesRelative ResponseWriter.fresh
            ⟨method, str "/redirect/" ++ code, body⟩ rec.OriginalURL StatusFound).getHeader
              (str "Location") = some (hexEscapeNonASCII rec.OriginalURL) := by
        intro h
        rw [httpRedirect_location, h, if_neg (by simp)]
      refine ⟨rec, rfl, httpRedirect_status _ _ _ _ _ rfl, hloc, ?_, ?_⟩
      · intro hs
        exact hloc (isRelativeRef_of_startsWithScheme _ _ hs)
      · intro hs hascii
        rw [hloc (isRelativeRef_of_startsWithScheme _ _ hs),
          hexEscapeNonASCII_of_ascii _ hascii]
    · intro hmem
      have := (Store.get_eq_none_iff db code).mpr hmem
      rw [hget] at this
      exact absurd this (by simp)

/-- Witness for C6: with `https://www.google.com` stored under `8ffdefbd`, the request
`GET /redirect/8ffdefbd` is answered with status 302 and that url as `Location`, the
request `GET /redirect/doesnotexist` with status 404 and the body "url not found". -/
theorem redirectUrlHandler_result_witness :
    (∃ w, redirectUrlHandler (fun _ => true)
        [(str "8ffdefbd", ⟨str "8ffdefbd", str "https://www.google.com", str "8ffdefbd", 1⟩)]
        ResponseWriter.fresh ⟨str "GET", str "/redirect/8ffdefbd", []⟩
          = .ok (w, [(str "8ffdefbd",
              ⟨str "8ffdefbd", str "https://www.google.com", str "8ffdefbd", 1⟩)]) ∧
      w.status = some 302 ∧
      w.getHeader (str "Location") = some (str "https://www.google.com")) ∧
    (∃ w, redirectUrlHandler (fun _ => true)
        [(str "8ffdefbd", ⟨str "8ffdefbd", str "https://www.google.com", str "8ffdefbd", 1⟩)]
        ResponseWriter.fresh ⟨str "GET", str "/redirect/doesnotexist", []⟩
          = .ok (w, [(str "8ffdefbd",
              ⟨str "8ffdefbd", str "https://www.google.com", str "8ffdefbd", 1⟩)]) ∧
      w.status = some 404 ∧ w.body = str "url not found\n") := by
  constructor
  · obtain ⟨w, hrun, hhit, -⟩ := redirectUrlHandler_result (fun _ => true)
      [(str "8ffdefbd", ⟨str "8ffdefbd", str "https://www.google.com", str "8ffdefbd", 1⟩)]
      (str "GET") [] (str "8ffdefbd")
    obtain ⟨rec, hrec, hstatus, -, -, hloc⟩ := hhit (by decide)
    have hstored : Store.get
        [(str "8ffdefbd", ⟨str "8ffdefbd", str "https://www.google.com", str "8ffdefbd", 1⟩)]
        (str "8ffdefbd")
          = some ⟨str "8ffdefbd", str "https://www.google.com", str "8ffdefbd", 1⟩ := by
      decide
    have hrec' : rec = ⟨str "8ffdefbd", str "https://www.google.com", str "8ffdefbd", 1⟩ :=
      Option.some.inj (hrec.symm.trans hstored)
    subst hrec'
    exact ⟨w, hrun, hstatus, hloc (by decide) (by decide)⟩
  · obtain ⟨w, hrun, -, hmiss⟩ := redirectUrlHandler_result (fun _ => true)
      [(str "8ffdefbd", ⟨str "8ffdefbd", str "https://www.google.com", str "8ffdefbd", 1⟩)]
      (str "GET") [] (str "doesnotexist")
    have hw : w = httpError ResponseWriter.fresh (str "url not found") StatusNotFound := by
      have h2 := redirectUrlHandler_miss (fun _ => true)
        [(str "8ffdefbd", ⟨str "8ffdefbd", str "https://www.google.com", str "8ffdefbd", 1⟩)]
        (str "GET") [] (str "doesnotexist") (by decide)
      rw [h2] at hrun
      exact ((Prod.mk.inj (Except.ok.inj hrun)).1).symm
    exact ⟨w, hrun, (hmiss (by decide)).1, by rw [hw]; decide⟩

/-- The case the amended C6 leaves out: a stored url without scheme, here `example.com`
under its code `5ababd60`, which `url.Parse` reads as a relative reference, is resolved
against the request path, so the `Location` header points back into this service. -/
theorem redirect_schemeless_location (parsesRelative : GoString → Bool)
    (h : parsesRelative (str "example.com") = true) :
    (httpRedirect parsesRelative ResponseWriter.fresh
      ⟨str "GET", str "/redirect/5ababd60", []⟩ (str "example.com") StatusFound).getHeader
        (str "Location") = some (str "/redirect/example.com") := by
  have hrel : isRelativeRef parsesRelative (str "example.com") = true := by
    simp only [isRelativeRef, h, Bool.and_true]
    decide
  rw [httpRedirect_location, hrel, if_pos rfl]
  decide

/-- C7 (shorten handler).  For every decoder result, store, time and request: when
decoding fails with message `msg`, the handler returns the store unchanged and a reply
with status 400 whose body is `msg` (and the line feed `http.Error` ends it with); when
decoding gives the url `u`, the handler returns the store `createUrl(u)` produces and a
reply with status 200, content type `application/json` and the JSON object
`{"short_url":"<code>"}` (and a line feed) as body, `code` being `genrateShortURL(u)`. -/
theorem shortUrlHandler_result (jsonDecode : GoString → Except GoString GoString)
    (db : Store) (now : Time) (r : Request) :
    (∀ msg, jsonDecode r.Body = .error msg →
      ∃ w, shortUrlHandler jsonDecode db now ResponseWriter.fresh r = .ok (w, db) ∧
        w.status = some 400 ∧ w.body = msg ++ str "\n") ∧
    (∀ u, jsonDecode r.Body = .ok u →
      ∃ w code db', shortUrlHandler jsonDecode db now ResponseWriter.fresh r = .ok (w, db') ∧
        genrateShortURL u = .ok code ∧ createUrl db now u = .ok (code, db') ∧
        w.status = some 200 ∧
        w.getHeader (str "Content-Type") = some (str "application/json") ∧
        w.body = str "\x7b\"short_url\":\"" ++ code ++ str "\"\x7d\n") := by
  constructor
  · intro msg hmsg
    refine ⟨httpError ResponseWriter.fresh msg StatusBadRequest, ?_, rfl, rfl⟩
    simp only [shortUrlHandler, hmsg]
  · intro u hu
    refine ⟨jsonEncodeShortURL
        (ResponseWriter.fresh.setHeader (str "Content-Type") (str "application/json"))
        (shortCode u), shortCode u, _, ?_, genrateShortURL_eq u, createUrl_eq db now u,
      rfl, ?_, ?_⟩
    · simp only [shortUrlHandler, hu, createUrl_eq, bind, Except.bind]
      rfl
    · simp [jsonEncodeShortURL, ResponseWriter.Write, ResponseWriter.WriteHeader,
        ResponseWriter.setHeader, ResponseWriter.fresh, ResponseWriter.getHeader]
    · simp only [jsonEncodeShortURL, ResponseWriter.Write, ResponseWriter.WriteHeader,
        ResponseWriter.setHeader, ResponseWriter.fresh, jsonString_shortCode, List.nil_append]
      have h1 : str "\x7b\"short_url\":\"" = str "\x7b\"short_url\":" ++ str "\"" := by decide
      have h2 : str "\"\x7d\n" = str "\"" ++ str "\x7d\n" := by decide
      rw [h1, h2]
      simp only [List.append_assoc]

/-- Witness for C7: the two shorten scenarios of the specification on the empty store,
the body `not-json` and the body naming `https://www.google.com`. -/
theorem shortUrlHandler_result_witness :
    (∃ w, shortUrlHandler scenarioDecode urlDB 7 ResponseWriter.fresh
        ⟨str "POST", str "/shorter", str "not-json"⟩ = .ok (w, urlDB) ∧
      w.status = some 400 ∧
      w.body = str "invalid character 'o' in literal null (expecting 'u')\n") ∧
    (∃ w db', shortUrlHandler scenarioDecode urlDB 7 ResponseWriter.fresh
        ⟨str "POST", str "/shorter", str "\x7b\"url\": \"https://www.google.com\"\x7d"⟩
          = .ok (w, db') ∧
      w.status = some 200 ∧ w.body = str "\x7b\"short_url\":\"8ffdefbd\"\x7d\n" ∧
      db' = [(str "8ffdefbd",
        ⟨str "8ffdefbd", str "https://www.google.com", str "8ffdefbd", 7⟩)]) := by
  constructor
  · obtain ⟨w, h1, h2, h3⟩ :=
      (shortUrlHandler_result scenarioDecode urlDB 7
        ⟨str "POST", str "/shorter", str "not-json"⟩).1
        (str "invalid character 'o' in literal null (expecting 'u')") (by rfl)
    exact ⟨w, h1, h2, h3.trans (by decide)⟩
  · obtain ⟨w, code, db', h1, h2, h3, h4, _, h6⟩ :=
      (shortUrlHandler_result scenarioDecode urlDB 7
        ⟨str "POST", str "/shorter", str "\x7b\"url\": \"https://www.google.com\"\x7d"⟩).2
        (str "https://www.google.com") (by rfl)
    have hcode : code = str "8ffdefbd" := by
      rw [genrateShortURL_eq] at h2
      exact (Except.ok.inj h2).symm.trans (by decide)
    subst hcode
    have hdb : db' = [(str "8ffdefbd",
        ⟨str "8ffdefbd", str "https://www.google.com", str "8ffdefbd", 7⟩)] := by
      rw [createUrl_eq] at h3
      exact ((Prod.mk.inj (Except.ok.inj h3)).2).symm.trans (by decide)
    exact ⟨w, db', h1, h4, h6.trans (by decide), hdb⟩

/-- C8, the claim as worded fails: for the path "/redirect/a/b", which begins with the
route prefix, the handler looks up "a/b", while the final path segment is "b". -/
theorem redirectId_not_last_segment :
    str "/redirect/" <+: str "/redirect/a/b" ∧
    redirectId (str "/redirect/a/b") = .ok (str "a/b") ∧
    lastSegment (str "/redirect/a/b") = str "b" ∧
    redirectId (str "/redirect/a/b") ≠ .ok (lastSegment (str "/redirect/a/b")) := by
  have h1 : redirectId (str "/redirect/a/b") = .ok (str "a/b") := redirectId_append (str "a/b")
  have h2 : lastSegment (str "/redirect/a/b") = str "b" := by decide
  refine ⟨by decide, h1, h2, ?_⟩
  rw [h1, h2]
  intro h
  exact absurd (Except.ok.inj h) (by decide)

/-- C8, amended.  For every request path `"/redirect/" ++ rest`, the code the handler
looks up with `getUrl` is `rest`, the whole of the path after the route prefix; it is
the final path segment exactly when `rest` holds no `/`. -/
theorem redirectId_is_path_remainder (rest : GoString) :
    redirectId (str "/redirect/" ++ rest) = .ok rest ∧
    (∀ (parsesRelative : GoString → Bool) (db : Store) (w : ResponseWriter)
        (method body : GoString),
      redirectUrlHandler parsesRelative db w ⟨method, str "/redirect/" ++ rest, body⟩ =
        .ok (match getUrl db rest with
          | (_, some err) => (httpError w err 404, db)
          | (url, none) =>
            (httpRedirect parsesRelative w ⟨method, str "/redirect/" ++ rest, body⟩
              url.OriginalURL 302, db))) ∧
    (lastSegment (str "/redirect/" ++ rest) = rest ↔ (0x2f : UInt8) ∉ rest) := by
  refine ⟨redirectId_append rest, ?_, lastSegment_append_iff rest⟩
  intro parsesRelative db w method body
  simp only [redirectUrlHandler, redirectId_append, bind, Except.bind]
  rcases getUrl db rest with ⟨url, _ | err⟩ <;> rfl

end UrlRedirect
